import Mathlib

/-!
Verification of the bidirectional EST planner `BiRealEST`
(`src/ompl/geometric/planners/est/src/BiRealEST.cpp`).

The planner's external collaborators (configuration space, validity
oracles, nearest-neighbor index behaviour, goal region) are modelled as
explicit parameters; configuration states are identified by natural
numbers, and the floating-point weights and distances of the source are
modelled over the rationals.
-/

namespace BiRealEST

/-- A tree node ("Motion" in the source): a state, its root-ancestor
state, an optional parent (the source uses a nullable pointer, embedded
as two constructors), and the handle (`element`) into the tree's
weighted sampler assigned at insertion time. -/
inductive Motion : Type where
  | mk0 (st rt : ℕ) (el : ℕ)
  | mk1 (st rt : ℕ) (par : Motion) (el : ℕ)
deriving DecidableEq, Repr

/-- `motion->state`. -/
def Motion.state : Motion → ℕ
  | .mk0 s _ _ => s
  | .mk1 s _ _ _ => s

/-- `motion->root`. -/
def Motion.root : Motion → ℕ
  | .mk0 _ r _ => r
  | .mk1 _ r _ _ => r

/-- `motion->parent` (NULL for root nodes). -/
def Motion.parent : Motion → Option Motion
  | .mk0 _ _ _ => none
  | .mk1 _ _ p _ => some p

/-- `motion->element`: the PDF handle, modelled as the index of the
node's entry in the weight list. -/
def Motion.elem : Motion → ℕ
  | .mk0 _ _ e => e
  | .mk1 _ _ _ e => e

/-- The parent chain walked in `solve` (`while (solution != NULL)`):
the node itself first, then its ancestors up to the root. -/
def chainToRoot : Motion → List Motion
  | .mk0 s r e => [.mk0 s r e]
  | .mk1 s r p e => .mk1 s r p e :: chainToRoot p

/-- The root ancestor reached by following `parent` links. -/
def rootAncestor : Motion → Motion
  | .mk0 s r e => .mk0 s r e
  | .mk1 _ _ p _ => rootAncestor p

/-- Path extraction of `solve` (lines 235-256): the start-side chain
`mpath1` (bridge to root) is appended in reverse order, then the
goal-side chain `mpath2` (bridge to root) is appended in order; the
path holds the states of those nodes. -/
def reconstructPath (startMotion goalMotion : Motion) : List ℕ :=
  ((chainToRoot startMotion).reverse ++ chainToRoot goalMotion).map Motion.state

/-- One side's data: the motion list (`startMotions_`/`goalMotions_`),
the weighted sampler (`startPdf_`/`goalPdf_`, entry `i` of `weights`
is the weight of the `i`-th PDF entry), and the nearest-neighbor index
contents (`nnStart_`/`nnGoal_`). -/
structure Tree where
  motions : List Motion
  weights : List ℚ
  nn : List Motion
deriving DecidableEq, Repr

def Tree.empty : Tree := ⟨[], [], []⟩

/-- `PDF::getWeight(elem)`. -/
def pdfGetWeight (ws : List ℚ) (e : ℕ) : ℚ := ws.getD e 0

/-- `PDF::update(elem, w)`. -/
def pdfUpdate (ws : List ℚ) (e : ℕ) (w : ℚ) : List ℚ := ws.set e w

/-- The weight-decay loop of `addMotion` (lines 280-285): each
neighbor's weight `w` becomes `w / (w + 1)`. -/
def decayNeighbors (ws : List ℚ) (neighbors : List Motion) : List ℚ :=
  neighbors.foldl (fun ws n =>
    pdfUpdate ws n.elem (pdfGetWeight ws n.elem / (pdfGetWeight ws n.elem + 1))) ws

/-- The node built by the caller of `addMotion` together with the PDF
element handle assigned inside `addMotion` (`pdf.add` appends, so the
handle is the current length of the weight list). -/
def newMotion (t : Tree) (st rt : ℕ) (par : Option Motion) : Motion :=
  match par with
  | none => .mk0 st rt t.weights.length
  | some p => .mk1 st rt p t.weights.length

/-- `BiRealEST::addMotion` (lines 275-290): decay every neighbor's
weight by `w/(w+1)`, add the new node to the PDF with weight
`1/(k+1)` (`k` = number of neighbors), append it to the motion list
and insert it into the nearest-neighbor index.  Returns the updated
tree together with the inserted node. -/
def addMotion (t : Tree) (st rt : ℕ) (par : Option Motion)
    (neighbors : List Motion) : Tree × Motion :=
  let m := newMotion t st rt par
  let ws := decayNeighbors t.weights neighbors
  (⟨t.motions ++ [m], ws ++ [1 / ((neighbors.length : ℚ) + 1)], t.nn ++ [m]⟩, m)

/-- The rejection test of `solve` (lines 203-208): with `k` nodes in
the candidate's neighborhood, the candidate is rejected when `k` is
nonzero and the fresh uniform draw is below `1 - 1/k`. -/
def densityReject (k : ℕ) (u : ℚ) : Bool :=
  if k ≠ 0 then decide (u < 1 - 1 / (k : ℚ)) else false

/-- The rejection probability realised by `densityReject` on a uniform
draw from `[0,1)`. -/
def rejectProb (k : ℕ) : ℚ :=
  if k = 0 then 0 else 1 - 1 / (k : ℚ)

/-- The external collaborators of the planner: the distance metric of
the configuration space, the motion-validity oracle (`si->checkMotion`),
the goal's start/goal pairing test, and the two radii fixed before the
loop runs (`maxDistance_`, `nbrhoodRadius_`). -/
structure Env where
  dist : ℕ → ℕ → ℚ
  checkMotion : ℕ → ℕ → Bool
  isStartGoalPairValid : ℕ → ℕ → Bool
  maxDistance : ℚ
  nbrhoodRadius : ℚ

/-- `nn->nearestR(motion, r, nbrs)`: all stored nodes within distance
`r` of the query state, in index-query order (the insertion order of
the modelled index). -/
def nearestR (env : Env) (nn : List Motion) (q : ℕ) (r : ℚ) : List Motion :=
  nn.filter (fun m => env.dist m.state q ≤ r)

/-- `PDF::sample(u)`: pick the entry whose cumulative-weight interval
contains `u` times the total weight; `none` only on an empty PDF
(the source asserts this never happens in the loop). -/
def pdfSampleAux : List Motion → List ℚ → ℚ → Option Motion
  | [], _, _ => none
  | [m], _, _ => some m
  | m :: _ :: _, [], _ => some m
  | m :: m2 :: ms, w :: ws, r => if r < w then some m else pdfSampleAux (m2 :: ms) ws (r - w)

def pdfSample (ms : List Motion) (ws : List ℚ) (u : ℚ) : Option Motion :=
  pdfSampleAux ms ws (u * ws.sum)

/-- The planner's mutable state during `solve`: the two trees, the
count of goal samples drawn so far (`pis_.getSampledGoalsCount()`),
the side flag `startTree`, the `solved` flag, the connection record
`connectionPoint_` (NULL pair modelled as `none`) and the solution
path handed to the problem definition on success. -/
structure PlannerState where
  startT : Tree
  goalT : Tree
  sampledGoals : ℕ
  startTree : Bool
  solved : Bool
  connection : Option (ℕ × ℕ)
  solutionPath : Option (List ℕ)
deriving DecidableEq, Repr

/-- The per-iteration external inputs: the goal sample `pis_.nextGoal`
would return if asked, the uniform draw used by `pdf.sample`, the
result of `sampler_->sampleNear` (`none` = failure), and the uniform
draw used by the density-rejection test. -/
structure IterIn where
  goalSample : Option ℕ
  uSelect : ℚ
  nearSample : Option ℕ
  uReject : ℚ
deriving DecidableEq, Repr

/-- Goal-tree replenishment (lines 164-176): when the goal tree is
empty, or fewer goal samples were drawn than half the goal tree's
size, draw one more goal sample and, if one is produced, insert it
into the goal tree as a fresh root. -/
def replenish (env : Env) (s : PlannerState) (inp : IterIn) : PlannerState :=
  if s.goalT.motions.length = 0 ∨ s.sampledGoals < s.goalT.motions.length / 2 then
    match inp.goalSample with
    | some st =>
        let nbrs := nearestR env s.goalT.nn st env.nbrhoodRadius
        { s with goalT := (addMotion s.goalT st st none nbrs).1,
                 sampledGoals := s.sampledGoals + 1 }
    | none => s
  else s

/-- The bridge scan of lines 225-261, as the search for the connecting
neighbor: the first node of the other tree (in index-query order)
whose root pairs validly with the new node's root and whose motion to
the new node is valid. -/
def bridgeScan (env : Env) (m : Motion) (nbrs : List Motion) : Option Motion :=
  nbrs.find? (fun n =>
    env.isStartGoalPairValid m.root n.root && env.checkMotion m.state n.state)

/-- The side being expanded this iteration
(`startTree ? startMotions_/startPdf_/nnStart_ : ...`). -/
def sideTree (s : PlannerState) : Tree :=
  if s.startTree then s.startT else s.goalT

/-- The other side's nearest-neighbor index queried by the bridge
attempt of line 224; the insertion of the new node touches only the
expanding side, so the pre-insertion state gives the same index. -/
def otherNN (s : PlannerState) : List Motion :=
  if s.startTree then s.goalT.nn else s.startT.nn

/-- The expansion phase of one loop iteration (lines 185-265): select
a seed from the current side's PDF, sample a candidate near it, run
density rejection, validate the seed-to-candidate motion, insert on
success, attempt to bridge to the other tree, and flip the side flag
unless the iteration was abandoned by a `continue`. -/
def expandPhase (env : Env) (s : PlannerState) (inp : IterIn) : PlannerState :=
  match pdfSample (sideTree s).motions (sideTree s).weights inp.uSelect with
  | none => s
  | some existing =>
    match inp.nearSample with
    | none => s
    | some xstate =>
      let nbrs := nearestR env (sideTree s).nn xstate env.nbrhoodRadius
      if densityReject nbrs.length inp.uReject then s
      else if env.checkMotion existing.state xstate then
        let res := addMotion (sideTree s) xstate existing.root (some existing) nbrs
        let s2 := if s.startTree then { s with startT := res.1 } else { s with goalT := res.1 }
        let bnbrs := nearestR env (otherNN s) res.2.state env.maxDistance
        let s3 :=
          match bridgeScan env res.2 bnbrs with
          | some n =>
              let startMotion := if s.startTree then res.2 else n
              let goalMotion := if s.startTree then n else res.2
              { s2 with connection := some (res.2.state, n.state),
                        solved := true,
                        solutionPath := some (reconstructPath startMotion goalMotion) }
          | none => s2
        { s3 with startTree := !s3.startTree }
      else { s with startTree := !s.startTree }

/-- One full main-loop iteration: replenishment, then — unless the
goal tree is still empty (the `break` of line 181) — the expansion
phase. -/
def loopIter (env : Env) (s : PlannerState) (inp : IterIn) : PlannerState :=
  let s1 := replenish env s inp
  if s1.goalT.motions.length = 0 then s1 else expandPhase env s1 inp

/-- The `while (ptc == false && !solved)` loop: the input list models
the termination condition (the condition trips exactly when the list
is exhausted); a still-empty goal tree after replenishment breaks out
of the loop. -/
def solveLoop (env : Env) (s : PlannerState) : List IterIn → PlannerState
  | [] => s
  | inp :: rest =>
      if s.solved then s
      else
        let s1 := replenish env s inp
        if s1.goalT.motions.length = 0 then s1
        else solveLoop env (expandPhase env s1 inp) rest

/-- An iteration reaches the flip of line 265 exactly when no
`continue` fired: the PDF produced a seed, `sampleNear` produced a
candidate, and the density test accepted it. -/
def reachesFlip (env : Env) (s : PlannerState) (inp : IterIn) : Bool :=
  match pdfSample (sideTree s).motions (sideTree s).weights inp.uSelect with
  | none => false
  | some _ =>
    match inp.nearSample with
    | none => false
    | some xstate =>
      !densityReject (nearestR env (sideTree s).nn xstate env.nbrhoodRadius).length inp.uReject

/-- The sequence of sides in force at each iteration that reaches the
flip step, over a run of the main loop. -/
def flipTrace (env : Env) (s : PlannerState) : List IterIn → List Bool
  | [] => []
  | inp :: rest =>
      if s.solved then []
      else
        let s1 := replenish env s inp
        if s1.goalT.motions.length = 0 then []
        else
          if reachesFlip env s1 inp then
            s1.startTree :: flipTrace env (expandPhase env s1 inp) rest
          else flipTrace env (expandPhase env s1 inp) rest

/-- The start-state insertion loop of lines 129-137: every state the
problem's input-state iterator yields becomes a root of the start
tree, inserted with `addMotion` after a neighborhood-radius query. -/
def insertStarts (env : Env) (s : PlannerState) (starts : List ℕ) : PlannerState :=
  starts.foldl (fun s st =>
    { s with startT :=
        (addMotion s.startT st st none (nearestR env s.startT.nn st env.nbrhoodRadius)).1 }) s

inductive PlannerStatus where
  | EXACT_SOLUTION
  | TIMEOUT
  | INVALID_START
  | INVALID_GOAL
  | UNRECOGNIZED_GOAL_TYPE
deriving DecidableEq, Repr

/-- The per-solve external inputs: whether the goal object casts to a
sampleable region, the (validity-filtered) start states handed out by
`pis_.nextStart()`, the goal's `couldSample()` answer, and the
per-iteration inputs of the main loop. -/
structure SolveIn where
  goalRecognized : Bool
  startStates : List ℕ
  couldSample : Bool
  iters : List IterIn

/-- `BiRealEST::solve` (lines 116-273): the entry checks in source
order (goal cast, valid starts, sampleable goal), then the main loop;
the status is `EXACT_SOLUTION` when the loop set `solved` and
`TIMEOUT` otherwise. -/
def solve (env : Env) (s0 : PlannerState) (inp : SolveIn) : PlannerStatus × PlannerState :=
  if !inp.goalRecognized then (.UNRECOGNIZED_GOAL_TYPE, s0)
  else
    let s1 := insertStarts env s0 inp.startStates
    if s1.startT.motions.length = 0 then (.INVALID_START, s1)
    else if !inp.couldSample then (.INVALID_GOAL, s1)
    else
      let sf := solveLoop env { s1 with startTree := true, solved := false } inp.iters
      ((if sf.solved then .EXACT_SOLUTION else .TIMEOUT), sf)

/-- A vertex of the exported planner graph: a state with its tag. -/
structure PDVertex where
  state : ℕ
  tag : ℕ
deriving DecidableEq, Repr

/-- Modelled from the spec: the output graph container (`PlannerData`)
is an external collaborator of this repository whose implementation is
not under `src/`; per the spec's §4.4 and §1 it stores vertices and
edges, an edge added by vertex value first registers any missing
endpoint vertices (an already-present state keeps its original vertex),
and an edge added by index is dropped when an endpoint index is the
invalid index (as happens for the NULL connection record of an
unsolved planner). -/
structure PlannerData where
  vertices : List PDVertex
  edges : List (ℕ × ℕ)
deriving DecidableEq, Repr

def PlannerData.empty : PlannerData := ⟨[], []⟩

/-- `PlannerData::vertexIndex(state)`: index of the vertex holding the
given state, or the invalid index (`none`) when absent. -/
def vertexIndex (d : PlannerData) (st : ℕ) : Option ℕ :=
  if d.vertices.any (fun v => v.state = st) then
    some (d.vertices.findIdx (fun v => v.state = st))
  else none

/-- Register a vertex unless a vertex with the same state exists. -/
def addVertexIfMissing (d : PlannerData) (v : PDVertex) : PlannerData :=
  if (vertexIndex d v.state).isSome then d
  else { d with vertices := d.vertices ++ [v] }

/-- `PlannerData::addEdge(v1, v2)` by vertex value: register both
endpoints, then record the edge between their indices. -/
def addEdgeV (d : PlannerData) (v1 v2 : PDVertex) : PlannerData :=
  let d1 := addVertexIfMissing (addVertexIfMissing d v1) v2
  let i := d1.vertices.findIdx (fun v => v.state = v1.state)
  let j := d1.vertices.findIdx (fun v => v.state = v2.state)
  { d1 with edges := d1.edges ++ [(i, j)] }

/-- `PlannerData::addEdge(i, j)` by index: a no-op when an endpoint is
the invalid index. -/
def addEdgeIdx (d : PlannerData) (i j : Option ℕ) : PlannerData :=
  match i, j with
  | some i, some j => { d with edges := d.edges ++ [(i, j)] }
  | _, _ => d

/-- One side's export loop of `getPlannerData`: roots become tagged
vertices; each non-root node contributes an edge, parent-to-child on
the start side and child-to-parent on the goal side. -/
def emitTree (tag : ℕ) (goalSide : Bool) (d : PlannerData) (ms : List Motion) : PlannerData :=
  ms.foldl (fun d m =>
    match m.parent with
    | none => addVertexIfMissing d ⟨m.state, tag⟩
    | some p =>
        if goalSide then addEdgeV d ⟨m.state, tag⟩ ⟨p.state, tag⟩
        else addEdgeV d ⟨p.state, tag⟩ ⟨m.state, tag⟩) d

/-- `BiRealEST::getPlannerData` (lines 292-317): export the start tree
with tag 1, the goal tree with tag 2 (edges reversed), then add the
edge between the vertex indices of the two connection-record states
(for the NULL record of an unsolved planner, `vertexIndex` yields the
invalid index and the edge is dropped). -/
def getPlannerData (s : PlannerState) : PlannerData :=
  let d1 := emitTree 1 false PlannerData.empty s.startT.motions
  let d2 := emitTree 2 true d1 s.goalT.motions
  let ci : Option ℕ × Option ℕ :=
    match s.connection with
    | none => (none, none)
    | some (a, b) => (vertexIndex d2 a, vertexIndex d2 b)
  addEdgeIdx d2 ci.1 ci.2

/-- The states of an edge's endpoint vertices, read off the final
vertex list. -/
def decodeEdge (vs : List PDVertex) (e : ℕ × ℕ) : ℕ × ℕ :=
  ((vs.getD e.1 ⟨0, 0⟩).state, (vs.getD e.2 ⟨0, 0⟩).state)

def decodeAll (d : PlannerData) : List (ℕ × ℕ) :=
  d.edges.map (decodeEdge d.vertices)

/-- The state pairs of the edges one side's export loop emits: one per
non-root node, parent-to-child on the start side and child-to-parent
on the goal side. -/
def treeEdges (goalSide : Bool) (ms : List Motion) : List (ℕ × ℕ) :=
  ms.filterMap (fun m => m.parent.map
    (fun p => if goalSide then (m.state, p.state) else (p.state, m.state)))

/-- The state pair of the connecting edge, when a connection was
recorded. -/
def connEdges : Option (ℕ × ℕ) → List (ℕ × ℕ)
  | none => []
  | some (a, b) => [(a, b)]

/-- A solved planner state used to exercise the graph export: a start
root with one child, a goal root, and the connection that bridged
them. -/
def sC8 : PlannerState :=
  ⟨⟨[Motion.mk0 0 0 0, Motion.mk1 1 0 (Motion.mk0 0 0 0) 1], [1, 1], []⟩,
   ⟨[Motion.mk0 5 5 0], [1], []⟩, 1, true, true, some (1, 5), none⟩

/-- The planner's range configuration: `maxDistance_` and
`nbrhoodRadius_`. -/
structure RangeConfig where
  maxDistance : ℚ
  nbrhoodRadius : ℚ
deriving DecidableEq, Repr

/-- The constructor (line 47) sets `maxDistance_ = 0`;
`nbrhoodRadius_` is left uninitialized, modelled by an arbitrary
initial value. -/
def initConfig (uninit : ℚ) : RangeConfig := ⟨0, uninit⟩

/-- Modelled from the spec: `setRange` is declared in `BiRealEST.h`,
which is not under `src/`; per the spec the neighborhood radius is a
derived parameter, default one third of the maximum expansion
distance and not independently settable, so setting the range also
derives the radius. -/
def setRange (_c : RangeConfig) (r : ℚ) : RangeConfig := ⟨r, r / 3⟩

/-- `BiRealEST::setup` (lines 58-78): when the range is below `1e-3`
it is self-configured (to the externally supplied value) and the
neighborhood radius is derived as one third of it. -/
def setup (c : RangeConfig) (selfConfigured : ℚ) : RangeConfig :=
  if c.maxDistance < 1 / 1000 then ⟨selfConfigured, selfConfigured / 3⟩ else c

/-- The observable planner state named by the frame claim: both motion
lists, both weighted samplers and both nearest-neighbor indices (the
`Tree` components), and the connection record. -/
def observable (s : PlannerState) : Tree × Tree × Option (ℕ × ℕ) :=
  (s.startT, s.goalT, s.connection)

/-- An iteration abandoned before insertion: the goal tree is
nonempty after replenishment, a seed was drawn, and then either
`sampleNear` failed, the density test rejected the candidate, or the
seed-to-candidate motion was invalid. -/
def abandonedPre (env : Env) (s : PlannerState) (inp : IterIn) : Bool :=
  let s1 := replenish env s inp
  decide (s1.goalT.motions.length ≠ 0) &&
  match pdfSample (sideTree s1).motions (sideTree s1).weights inp.uSelect with
  | none => false
  | some existing =>
    match inp.nearSample with
    | none => true
    | some xstate =>
        densityReject (nearestR env (sideTree s1).nn xstate env.nbrhoodRadius).length inp.uReject ||
        !env.checkMotion existing.state xstate

/-! ### Concrete instances used to exercise the model -/

/-- A toy environment: distinct states are at distance 2, every
motion is valid, every root pairing is accepted; expansion range 3,
neighborhood radius 1. -/
def envC : Env :=
  ⟨fun a b => if a = b then 0 else 2, fun _ _ => true, fun _ _ => true, 3, 1⟩

/-- A planner state holding one start root and an empty goal tree. -/
def sC : PlannerState :=
  ⟨⟨[Motion.mk0 0 0 0], [1], [Motion.mk0 0 0 0]⟩, Tree.empty, 0, true, false, none, none⟩

/-- Iteration inputs whose local sampling fails after a goal sample
was produced. -/
def inpC : IterIn := ⟨some 7, 0, none, 0⟩

/-- Iteration inputs that expand successfully from the seed to
state 1. -/
def inpOk : IterIn := ⟨some 7, 0, some 1, 0⟩

/-- A fresh planner state: both trees empty, nothing solved. -/
def st0 : PlannerState := ⟨Tree.empty, Tree.empty, 0, true, false, none, none⟩

/-- A planner state with one root on each side. -/
def sC2 : PlannerState :=
  ⟨⟨[Motion.mk0 0 0 0], [1], [Motion.mk0 0 0 0]⟩,
   ⟨[Motion.mk0 5 5 0], [1], [Motion.mk0 5 5 0]⟩, 1, true, false, none, none⟩

/-- A planner state already marked solved. -/
def sSolved : PlannerState :=
  ⟨⟨[Motion.mk0 0 0 0], [1], [Motion.mk0 0 0 0]⟩, Tree.empty, 0, true, true, none, none⟩

/-- A solve input with one start state and an immediate termination
condition. -/
def inpSolve : SolveIn := ⟨true, [0], true, []⟩

/-- A solve input whose goal object is not of a sampleable kind. -/
def inpUG : SolveIn := ⟨false, [], true, []⟩

/-- A solve input with no valid start states. -/
def inpNS : SolveIn := ⟨true, [], true, []⟩

/-- A solve input whose goal region cannot produce a sample. -/
def inpNG : SolveIn := ⟨true, [0], false, []⟩

/-! ### Helper lemmas -/

theorem decayNeighbors_cons (ws : List ℚ) (m : Motion) (t : List Motion) :
    decayNeighbors ws (m :: t)
      = decayNeighbors
          (pdfUpdate ws m.elem (pdfGetWeight ws m.elem / (pdfGetWeight ws m.elem + 1))) t := rfl

theorem decayNeighbors_length (l : List Motion) (ws : List ℚ) :
    (decayNeighbors ws l).length = ws.length := by
  induction l generalizing ws with
  | nil => rfl
  | cons m t ih => rw [decayNeighbors_cons, ih, pdfUpdate, List.length_set]

theorem decayNeighbors_getD_not_mem (l : List Motion) (ws : List ℚ) (e : ℕ)
    (h : e ∉ l.map Motion.elem) :
    (decayNeighbors ws l).getD e 0 = ws.getD e 0 := by
  induction l generalizing ws with
  | nil => rfl
  | cons m t ih =>
      simp only [List.map_cons, List.mem_cons, not_or] at h
      rw [decayNeighbors_cons, ih _ h.2, pdfUpdate, List.getD_eq_getElem?_getD,
        List.getElem?_set_ne (Ne.symm h.1), List.getD_eq_getElem?_getD]

theorem decayNeighbors_getD_mem (l : List Motion) (ws : List ℚ) (n : Motion)
    (hnd : (l.map Motion.elem).Nodup) (hmem : n ∈ l) (hlt : n.elem < ws.length) :
    (decayNeighbors ws l).getD n.elem 0
      = ws.getD n.elem 0 / (ws.getD n.elem 0 + 1) := by
  induction l generalizing ws with
  | nil => cases hmem
  | cons m t ih =>
      rw [List.map_cons, List.nodup_cons] at hnd
      rcases List.mem_cons.mp hmem with rfl | hmem2
      · rw [decayNeighbors_cons, decayNeighbors_getD_not_mem t _ _ hnd.1, pdfUpdate,
          List.getD_eq_getElem?_getD, List.getElem?_set_self hlt, pdfGetWeight,
          Option.getD_some]
      · have hne : m.elem ≠ n.elem := by
          intro h
          exact hnd.1 (h ▸ List.mem_map_of_mem Motion.elem hmem2)
        rw [decayNeighbors_cons, ih _ hnd.2 hmem2
            (by rw [pdfUpdate, List.length_set]; exact hlt), pdfUpdate,
          List.getD_eq_getElem?_getD, List.getElem?_set_ne hne, ← List.getD_eq_getElem?_getD]

theorem chainToRoot_head (m : Motion) : (chainToRoot m).head? = some m := by
  cases m <;> rfl

theorem chainToRoot_getLast (m : Motion) :
    (chainToRoot m).getLast? = some (rootAncestor m) := by
  induction m with
  | mk0 s r e => rfl
  | mk1 s r p e ih =>
      obtain ⟨hd, tl, hp⟩ : ∃ hd tl, chainToRoot p = hd :: tl := by
        have h := chainToRoot_head p
        cases hcp : chainToRoot p with
        | nil => rw [hcp] at h; cases h
        | cons a b => exact ⟨a, b, rfl⟩
      rw [chainToRoot, hp, List.getLast?_cons_cons, ← hp, ih, rootAncestor]

theorem rootAncestor_parent (m : Motion) : (rootAncestor m).parent = none := by
  induction m with
  | mk0 s r e => rfl
  | mk1 s r p e ih => rw [rootAncestor]; exact ih

/-! ### Claim theorems -/

/-- C1: `addMotion` with `k` pre-insertion neighbors updates each
neighbor of current weight `w` to exactly `w / (w + 1)` — a strict
decrease whenever `w > 0` — and inserts the new node into the sampler
with weight exactly `1 / (k + 1)`. -/
theorem addMotion_weight_update (t : Tree) (st rt : ℕ) (par : Option Motion)
    (neighbors : List Motion)
    (hnd : (neighbors.map Motion.elem).Nodup)
    (hlt : ∀ n ∈ neighbors, n.elem < t.weights.length) :
    (∀ n ∈ neighbors,
        (addMotion t st rt par neighbors).1.weights.getD n.elem 0
          = t.weights.getD n.elem 0 / (t.weights.getD n.elem 0 + 1)
        ∧ (0 < t.weights.getD n.elem 0 →
            (addMotion t st rt par neighbors).1.weights.getD n.elem 0
              < t.weights.getD n.elem 0))
    ∧ (addMotion t st rt par neighbors).1.weights.getD t.weights.length 0
        = 1 / ((neighbors.length : ℚ) + 1) := by
  have hws : (addMotion t st rt par neighbors).1.weights
      = decayNeighbors t.weights neighbors ++ [1 / ((neighbors.length : ℚ) + 1)] := rfl
  constructor
  · intro n hn
    have hlen : n.elem < (decayNeighbors t.weights neighbors).length := by
      rw [decayNeighbors_length]; exact hlt n hn
    have hval : (addMotion t st rt par neighbors).1.weights.getD n.elem 0
        = t.weights.getD n.elem 0 / (t.weights.getD n.elem 0 + 1) := by
      rw [hws, List.getD_eq_getElem?_getD, List.getElem?_append_left hlen,
        ← List.getD_eq_getElem?_getD, decayNeighbors_getD_mem _ _ _ hnd hn (hlt n hn)]
    refine ⟨hval, fun hpos => ?_⟩
    rw [hval]
    exact div_lt_self hpos (by linarith)
  · rw [hws, List.getD_eq_getElem?_getD,
      List.getElem?_append_right (by rw [decayNeighbors_length] : (decayNeighbors t.weights neighbors).length ≤ t.weights.length),
      decayNeighbors_length]
    simp

/-- Witness for C1: a tree with one sampler entry of weight 3 and one
neighbor holding it; after `addMotion` the neighbor's weight is
`3/4 = 3/(3+1) < 3` and the new node's weight is `1/2 = 1/(1+1)`. -/
theorem addMotion_weight_update_witness :
    (addMotion ⟨[], [(3 : ℚ)], []⟩ 5 5 none [Motion.mk0 9 9 0]).1.weights.getD
        (Motion.mk0 9 9 0).elem 0 = 3 / 4
    ∧ (addMotion ⟨[], [(3 : ℚ)], []⟩ 5 5 none
        [Motion.mk0 9 9 0]).1.weights.getD ((⟨[], [(3 : ℚ)], []⟩ : Tree).weights.length) 0
        = 1 / 2 := by
  have h := addMotion_weight_update ⟨[], [(3 : ℚ)], []⟩ 5 5 none [Motion.mk0 9 9 0]
    (by decide) (by intro n hn; fin_cases hn; decide)
  have h1 := (h.1 (Motion.mk0 9 9 0) (by simp)).1
  refine ⟨?_, ?_⟩
  · rw [h1]
    norm_num [Motion.elem, List.getD_cons_zero]
  · rw [h.2]
    norm_num

/-- C2: the density-rejection step rejects exactly when the
neighborhood count `k` is nonzero and the uniform draw `u` is below
`1 - 1/k`; at `k = 0` the candidate always passes (rejection
probability exactly 0), and the rejection probability is
non-decreasing in `k`. -/
theorem densityReject_spec (k j : ℕ) (u : ℚ) :
    (densityReject k u = true ↔ k ≠ 0 ∧ u < 1 - 1 / (k : ℚ))
    ∧ densityReject 0 u = false
    ∧ rejectProb 0 = 0
    ∧ (k ≤ j → rejectProb k ≤ rejectProb j) := by
  refine ⟨?_, by simp [densityReject], rfl, ?_⟩
  · by_cases hk : k = 0 <;> simp [densityReject, hk]
  · intro hkj
    unfold rejectProb
    split_ifs with hk hj hj
    · exact le_refl 0
    · have hj1 : (1 : ℚ) ≤ (j : ℚ) := by exact_mod_cast Nat.one_le_iff_ne_zero.mpr hj
      have h2 : (1 : ℚ) / (j : ℚ) ≤ 1 := div_le_one_of_le₀ hj1 (by positivity)
      linarith
    · exact absurd (Nat.le_zero.mp (hj ▸ hkj)) hk
    · have hkpos : (0 : ℚ) < (k : ℚ) := by exact_mod_cast Nat.pos_of_ne_zero hk
      have hmono : (1 : ℚ) / (j : ℚ) ≤ 1 / (k : ℚ) :=
        one_div_le_one_div_of_le hkpos (by exact_mod_cast hkj)
      linarith

/-- Witness for C2: at `k = 0` the draw `1/2` passes, and the
rejection probability at 2 neighbors is at most that at 3. -/
theorem densityReject_spec_witness :
    densityReject 0 (1 / 2) = false ∧ rejectProb 2 ≤ rejectProb 3 :=
  ⟨(densityReject_spec 0 0 (1 / 2)).2.1,
   (densityReject_spec 2 3 (1 / 2)).2.2.2 (by decide)⟩

/-- C4: the produced path is exactly the reversed start-side parent
chain followed by the goal-side parent chain; its first state is the
state of the start-side chain's root (a parentless node), its last
state is the state of the goal-side chain's root, and its length is
the sum of the two chain lengths. -/
theorem reconstructPath_spec (m g : Motion) :
    reconstructPath m g
      = ((chainToRoot m).map Motion.state).reverse ++ (chainToRoot g).map Motion.state
    ∧ (reconstructPath m g).length = (chainToRoot m).length + (chainToRoot g).length
    ∧ (reconstructPath m g).head? = some (rootAncestor m).state
    ∧ (reconstructPath m g).getLast? = some (rootAncestor g).state
    ∧ (rootAncestor m).parent = none ∧ (rootAncestor g).parent = none := by
  have heq : reconstructPath m g
      = ((chainToRoot m).map Motion.state).reverse ++ (chainToRoot g).map Motion.state := by
    rw [reconstructPath, List.map_append, List.map_reverse]
  refine ⟨heq, ?_, ?_, ?_, rootAncestor_parent m, rootAncestor_parent g⟩
  · rw [heq]
    simp
  · rw [heq, List.head?_append, List.head?_reverse, List.getLast?_map, chainToRoot_getLast]
    rfl
  · rw [heq, List.getLast?_append, List.getLast?_map, chainToRoot_getLast]
    rfl

theorem setRange_foldl_inv (uninit : ℚ) (rs : List ℚ) :
    rs.foldl setRange (initConfig uninit) = initConfig uninit
    ∨ (rs.foldl setRange (initConfig uninit)).nbrhoodRadius
        = (rs.foldl setRange (initConfig uninit)).maxDistance / 3 := by
  induction rs using List.reverseRecOn with
  | nil => exact Or.inl rfl
  | append_singleton l a ih => right; rw [List.foldl_append]; rfl

/-- C9: after `setup`, the neighborhood radius is one third of the
range, whether the range was left to self-configure (the constructor
state, possibly with an arbitrary uninitialized radius) or was set by
any sequence of explicit `setRange` calls beforehand. -/
theorem setup_nbrhoodRadius (uninit sc : ℚ) (rs : List ℚ) :
    (setup (rs.foldl setRange (initConfig uninit)) sc).nbrhoodRadius
      = (setup (rs.foldl setRange (initConfig uninit)) sc).maxDistance / 3 := by
  rcases setRange_foldl_inv uninit rs with h | h
  · rw [h]
    norm_num [setup, initConfig]
  · unfold setup
    split_ifs
    · rfl
    · exact h

theorem replenish_startTree (env : Env) (s : PlannerState) (inp : IterIn) :
    (replenish env s inp).startTree = s.startTree := by
  unfold replenish
  split_ifs
  · cases inp.goalSample <;> rfl
  · rfl

theorem replenish_solved (env : Env) (s : PlannerState) (inp : IterIn) :
    (replenish env s inp).solved = s.solved := by
  unfold replenish
  split_ifs
  · cases inp.goalSample <;> rfl
  · rfl

theorem expandPhase_startTree (env : Env) (s : PlannerState) (inp : IterIn) :
    (expandPhase env s inp).startTree
      = (if reachesFlip env s inp then !s.startTree else s.startTree) := by
  unfold expandPhase reachesFlip
  cases hps : pdfSample (sideTree s).motions (sideTree s).weights inp.uSelect with
  | none => simp
  | some ex =>
      cases hns : inp.nearSample with
      | none => simp
      | some x =>
          by_cases hdr : densityReject
              (nearestR env (sideTree s).nn x env.nbrhoodRadius).length inp.uReject
          · simp [hdr]
          · by_cases hcm : env.checkMotion ex.state x
            · simp only [hdr, hcm, Bool.not_false, if_true, if_false]
              cases hbs : bridgeScan env
                  (addMotion (sideTree s) x ex.root (some ex)
                    (nearestR env (sideTree s).nn x env.nbrhoodRadius)).2
                  (nearestR env (otherNN s)
                    (addMotion (sideTree s) x ex.root (some ex)
                      (nearestR env (sideTree s).nn x env.nbrhoodRadius)).2.state
                    env.maxDistance) with
              | none => cases hst : s.startTree <;> simp [hbs, hst]
              | some n => cases hst : s.startTree <;> simp [hbs, hst]
            · simp [hdr, hcm]

theorem flipTrace_head (env : Env) : ∀ (inputs : List IterIn) (s : PlannerState) (b : Bool),
    (flipTrace env s inputs).head? = some b → b = s.startTree := by
  intro inputs
  induction inputs with
  | nil => intro s b h; cases h
  | cons inp rest ih =>
      intro s b h
      rw [flipTrace] at h
      by_cases hs : s.solved
      · rw [if_pos hs] at h; cases h
      · rw [if_neg hs] at h
        by_cases hgt : (replenish env s inp).goalT.motions.length = 0
        · rw [if_pos hgt] at h; cases h
        · rw [if_neg hgt] at h
          by_cases hrf : reachesFlip env (replenish env s inp) inp
          · rw [if_pos hrf, List.head?_cons, Option.some_inj] at h
            rw [← h, replenish_startTree]
          · rw [if_neg hrf] at h
            rw [ih _ b h, expandPhase_startTree, if_neg hrf, replenish_startTree]

theorem flipTrace_chain (env : Env) : ∀ (inputs : List IterIn) (s : PlannerState),
    List.Chain' (fun a b => b = !a) (flipTrace env s inputs) := by
  intro inputs
  induction inputs with
  | nil => intro s; exact List.chain'_nil
  | cons inp rest ih =>
      intro s
      rw [flipTrace]
      by_cases hs : s.solved
      · rw [if_pos hs]; exact List.chain'_nil
      · rw [if_neg hs]
        by_cases hgt : (replenish env s inp).goalT.motions.length = 0
        · rw [if_pos hgt]; exact List.chain'_nil
        · rw [if_neg hgt]
          by_cases hrf : reachesFlip env (replenish env s inp) inp
          · rw [if_pos hrf]
            refine List.chain'_cons'.mpr ⟨?_, ih _⟩
            intro y hy
            rw [flipTrace_head env rest _ y hy, expandPhase_startTree, if_pos hrf]
          · rw [if_neg hrf]
            exact ih _

/-- C5: across any run of the main loop, an iteration flips the side
flag exactly when it reaches the flip step (no `continue` fired), and
the sequence of sides in force at the flip-reaching iterations
alternates strictly — no two consecutive side-expanded decisions use
the same side. -/
theorem solve_alternation (env : Env) (s : PlannerState) (inputs : List IterIn) :
    (∀ (s2 : PlannerState) (inp : IterIn),
        (expandPhase env s2 inp).startTree
          = (if reachesFlip env s2 inp then !s2.startTree else s2.startTree))
    ∧ List.Chain' (fun a b => b = !a) (flipTrace env s inputs) :=
  ⟨fun s2 inp => expandPhase_startTree env s2 inp, flipTrace_chain env inputs s⟩

/-- C3: the bridge attempt scans the other tree's neighbors in
index-query order and succeeds at the first one passing both the
root-pairing test and the motion-validity test (all earlier neighbors
fail the combined test); on that success the connection record becomes
(new node's state, neighbor's state) and `solved` is set; and a solved
state terminates the main loop at once. -/
theorem bridge_first_success (env : Env) :
    (∀ (m n : Motion) (nbrs : List Motion),
        bridgeScan env m nbrs = some n →
          (env.isStartGoalPairValid m.root n.root && env.checkMotion m.state n.state) = true
          ∧ ∃ pre post, nbrs = pre ++ n :: post
              ∧ ∀ x ∈ pre,
                  (env.isStartGoalPairValid m.root x.root
                    && env.checkMotion m.state x.state) = false)
    ∧ (∀ (s : PlannerState) (inp : IterIn) (ex : Motion) (x : ℕ) (mm n : Motion),
        pdfSample (sideTree s).motions (sideTree s).weights inp.uSelect = some ex →
        inp.nearSample = some x →
        densityReject (nearestR env (sideTree s).nn x env.nbrhoodRadius).length
          inp.uReject = false →
        env.checkMotion ex.state x = true →
        mm = (addMotion (sideTree s) x ex.root (some ex)
                (nearestR env (sideTree s).nn x env.nbrhoodRadius)).2 →
        bridgeScan env mm (nearestR env (otherNN s) mm.state env.maxDistance) = some n →
          (expandPhase env s inp).connection = some (mm.state, n.state)
          ∧ (expandPhase env s inp).solved = true)
    ∧ (∀ (s : PlannerState) (inputs : List IterIn),
        s.solved = true → solveLoop env s inputs = s) := by
  refine ⟨?_, ?_, ?_⟩
  · intro m n nbrs h
    obtain ⟨hp, pre, post, heq, hall⟩ := List.find?_eq_some.mp h
    exact ⟨hp, pre, post, heq, fun x hx => (Bool.not_eq_true' _) ▸ hall x hx⟩
  · intro s inp ex x mm n hps hns hdr hcm hmm hbs
    subst hmm
    unfold expandPhase
    rw [hps, hns]
    simp only [hdr, hcm, Bool.false_eq_true, if_false, if_true]
    rw [hbs]
    by_cases hst : s.startTree <;> simp [hst]
  · intro s inputs hsolved
    cases inputs with
    | nil => rfl
    | cons inp rest => rw [solveLoop, if_pos hsolved]

/-- Witness for C3: in `sC2` (one root per side) the successful
expansion to state 1 bridges to the goal root with state 5, records
the connection and solves; a solved state ends the loop. -/
theorem bridge_first_success_witness :
    ((expandPhase envC sC2 inpOk).connection
        = some (((addMotion (sideTree sC2) 1 (Motion.mk0 0 0 0).root (some (Motion.mk0 0 0 0))
            (nearestR envC (sideTree sC2).nn 1 envC.nbrhoodRadius)).2).state,
          (Motion.mk0 5 5 0).state)
      ∧ (expandPhase envC sC2 inpOk).solved = true)
    ∧ solveLoop envC sSolved [inpC] = sSolved := by
  refine ⟨?_, (bridge_first_success envC).2.2 sSolved [inpC] (by rfl)⟩
  exact (bridge_first_success envC).2.1 sC2 inpOk (Motion.mk0 0 0 0) 1 _ (Motion.mk0 5 5 0)
    (by rfl) (by rfl) (by rfl) (by rfl) rfl (by rfl)

/-- C6: the entry checks of `solve` run before the main loop, with no
search attempted: an unrecognized goal type returns
`UNRECOGNIZED_GOAL_TYPE` with the planner state untouched; an empty
start tree after start insertion returns `INVALID_START` with the
state exactly as left by start insertion; a goal region that cannot
sample returns `INVALID_GOAL`, again without running the loop. -/
theorem solve_entry_checks (env : Env) (s0 : PlannerState) (inp : SolveIn) :
    (inp.goalRecognized = false →
        solve env s0 inp = (PlannerStatus.UNRECOGNIZED_GOAL_TYPE, s0))
    ∧ (inp.goalRecognized = true →
        (insertStarts env s0 inp.startStates).startT.motions.length = 0 →
        solve env s0 inp = (PlannerStatus.INVALID_START, insertStarts env s0 inp.startStates))
    ∧ (inp.goalRecognized = true →
        (insertStarts env s0 inp.startStates).startT.motions.length ≠ 0 →
        inp.couldSample = false →
        solve env s0 inp = (PlannerStatus.INVALID_GOAL, insertStarts env s0 inp.startStates)) := by
  refine ⟨fun hg => ?_, fun hg hlen => ?_, fun hg hlen hc => ?_⟩
  · unfold solve
    rw [hg]
    rfl
  · unfold solve
    rw [hg]
    simp [hlen]
  · unfold solve
    rw [hg, hc]
    simp only [Bool.not_true, Bool.not_false, Bool.false_eq_true, if_false, if_true,
      if_neg hlen]

/-- Witness for C6: each entry check exercised on a concrete input. -/
theorem solve_entry_checks_witness :
    solve envC st0 inpUG = (PlannerStatus.UNRECOGNIZED_GOAL_TYPE, st0)
    ∧ solve envC st0 inpNS = (PlannerStatus.INVALID_START, insertStarts envC st0 [])
    ∧ solve envC st0 inpNG = (PlannerStatus.INVALID_GOAL, insertStarts envC st0 [0]) :=
  ⟨(solve_entry_checks envC st0 inpUG).1 rfl,
   (solve_entry_checks envC st0 inpNS).2.1 rfl rfl,
   (solve_entry_checks envC st0 inpNG).2.2 rfl (by decide) rfl⟩

/-- C7: once the entry checks pass, the result state is exactly the
main loop's final state; the status is `EXACT_SOLUTION` exactly when
that state is solved and `TIMEOUT` exactly when it is not; and a
loop iteration whose replenishment leaves the goal tree empty stops
the loop at once in an unsolved state (reported as `TIMEOUT`). -/
theorem solve_loop_status (env : Env) (s0 : PlannerState) (inp : SolveIn)
    (hg : inp.goalRecognized = true)
    (hs : (insertStarts env s0 inp.startStates).startT.motions.length ≠ 0)
    (hc : inp.couldSample = true) :
    (solve env s0 inp).2
        = solveLoop env
            { insertStarts env s0 inp.startStates with startTree := true, solved := false }
            inp.iters
    ∧ ((solve env s0 inp).1 = PlannerStatus.EXACT_SOLUTION ↔ (solve env s0 inp).2.solved = true)
    ∧ ((solve env s0 inp).1 = PlannerStatus.TIMEOUT ↔ (solve env s0 inp).2.solved = false)
    ∧ (∀ (s : PlannerState) (inp2 : IterIn) (rest : List IterIn),
        s.solved = false →
        (replenish env s inp2).goalT.motions.length = 0 →
        solveLoop env s (inp2 :: rest) = replenish env s inp2
        ∧ (replenish env s inp2).solved = false) := by
  have hsolve : solve env s0 inp
      = (((if (solveLoop env
              { insertStarts env s0 inp.startStates with startTree := true, solved := false }
              inp.iters).solved then PlannerStatus.EXACT_SOLUTION else PlannerStatus.TIMEOUT)),
          solveLoop env
            { insertStarts env s0 inp.startStates with startTree := true, solved := false }
            inp.iters) := by
    unfold solve
    rw [hg, hc]
    simp only [Bool.not_true, Bool.false_eq_true, if_false, if_neg hs]
  refine ⟨by rw [hsolve], ?_, ?_, ?_⟩
  · rw [hsolve]
    by_cases hsf : (solveLoop env
        { insertStarts env s0 inp.startStates with startTree := true, solved := false }
        inp.iters).solved <;> simp [hsf]
  · rw [hsolve]
    by_cases hsf : (solveLoop env
        { insertStarts env s0 inp.startStates with startTree := true, solved := false }
        inp.iters).solved <;> simp [hsf]
  · intro s inp2 rest hns hempty
    refine ⟨?_, by rw [replenish_solved]; exact hns⟩
    rw [solveLoop, if_neg (by rw [hns]; exact Bool.false_ne_true), if_pos hempty]

/-- Witness for C7: a run with an immediately tripping termination
condition ends unsolved and reports `TIMEOUT`; a state whose
replenishment cannot fill the empty goal tree stops the loop. -/
theorem solve_loop_status_witness :
    (solve envC st0 inpSolve).1 = PlannerStatus.TIMEOUT
    ∧ solveLoop envC st0 [⟨none, 0, none, 0⟩] = replenish envC st0 ⟨none, 0, none, 0⟩ := by
  have h := solve_loop_status envC st0 inpSolve rfl (by decide) rfl
  constructor
  · exact (h.2.2.1).mpr (by rw [h.1]; rfl)
  · exact (h.2.2.2 st0 ⟨none, 0, none, 0⟩ [] rfl rfl).1

/-- C10 (as stated) is refuted: an iteration abandoned by a failed
`sampleNear` does not leave the observable state unchanged when the
goal-tree replenishment at the top of that same iteration inserted a
goal sample. -/
theorem loopIter_frame_cex :
    abandonedPre envC sC inpC = true
    ∧ observable (loopIter envC sC inpC) ≠ observable sC := by
  constructor
  · rfl
  · intro h
    have h2 := congrArg (fun o => o.2.1.motions.length) h
    simp only [observable] at h2
    exact absurd h2 (by decide)

/-- C10 (amended): an iteration abandoned before insertion — failed
`sampleNear`, density rejection, or invalid seed-to-candidate motion —
leaves the observable state (motion lists, samplers, indices,
connection record) exactly as it was after the iteration's goal-tree
replenishment step; only the replenishment insertion and the RNG
advance. -/
theorem loopIter_abandoned_frame (env : Env) (s : PlannerState) (inp : IterIn)
    (h : abandonedPre env s inp = true) :
    observable (loopIter env s inp) = observable (replenish env s inp) := by
  unfold abandonedPre at h
  rw [Bool.and_eq_true] at h
  obtain ⟨hlen, hrest⟩ := h
  rw [decide_eq_true_eq] at hlen
  unfold loopIter
  rw [if_neg hlen]
  unfold expandPhase
  cases hps : pdfSample (sideTree (replenish env s inp)).motions
      (sideTree (replenish env s inp)).weights inp.uSelect with
  | none => rw [hps] at hrest
  | some ex =>
      rw [hps] at hrest
      cases hns : inp.nearSample with
      | none => rfl
      | some x =>
          rw [hns] at hrest
          by_cases hdr : densityReject
              (nearestR env (sideTree (replenish env s inp)).nn x env.nbrhoodRadius).length
              inp.uReject
          · simp [hdr]
          · have hcm : env.checkMotion ex.state x = false := by
              rcases (Bool.or_eq_true _ _) ▸ hrest with h1 | h1
              · exact absurd h1 hdr
              · exact (Bool.not_eq_true' _) ▸ h1
            simp [hdr, hcm, observable]

/-- Witness for the amended C10: the concrete abandoned iteration of
the counterexample matches the replenished state exactly. -/
theorem loopIter_abandoned_frame_witness :
    observable (loopIter envC sC inpC) = observable (replenish envC sC inpC) :=
  loopIter_abandoned_frame envC sC inpC (by rfl)

/-! ### Lemmas about the planner-graph export -/

theorem addVertexIfMissing_edges (d : PlannerData) (v : PDVertex) :
    (addVertexIfMissing d v).edges = d.edges := by
  unfold addVertexIfMissing
  split <;> rfl

theorem addVertexIfMissing_vertices (d : PlannerData) (v : PDVertex) :
    (addVertexIfMissing d v).vertices = d.vertices
    ∨ (addVertexIfMissing d v).vertices = d.vertices ++ [v] := by
  unfold addVertexIfMissing
  split
  · exact Or.inl rfl
  · exact Or.inr rfl

theorem addVertexIfMissing_append (d : PlannerData) (v : PDVertex) :
    ∃ ext, (addVertexIfMissing d v).vertices = d.vertices ++ ext := by
  rcases addVertexIfMissing_vertices d v with h | h
  · exact ⟨[], by rw [h, List.append_nil]⟩
  · exact ⟨[v], h⟩

theorem addVertexIfMissing_sub (d : PlannerData) (v : PDVertex) :
    ∀ w ∈ (addVertexIfMissing d v).vertices, w ∈ d.vertices ∨ w = v := by
  intro w hw
  rcases addVertexIfMissing_vertices d v with h | h <;> rw [h] at hw
  · exact Or.inl hw
  · rcases List.mem_append.mp hw with h2 | h2
    · exact Or.inl h2
    · exact Or.inr (List.mem_singleton.mp h2)

theorem vertexIndex_isSome (d : PlannerData) (st : ℕ) :
    (vertexIndex d st).isSome = d.vertices.any (fun v => v.state = st) := by
  unfold vertexIndex
  split
  · next h => rw [h]; rfl
  · next h => simp only [Bool.not_eq_true] at h; rw [h]; rfl

theorem findIdx_state (vs : List PDVertex) (st : ℕ)
    (h : st ∈ vs.map PDVertex.state) :
    vs.findIdx (fun v => v.state = st) < vs.length
    ∧ (vs.getD (vs.findIdx (fun v => v.state = st)) ⟨0, 0⟩).state = st := by
  obtain ⟨w, hw, hws⟩ := List.mem_map.mp h
  have hlt : vs.findIdx (fun v => v.state = st) < vs.length :=
    List.findIdx_lt_length.mpr ⟨w, hw, by simpa using hws⟩
  refine ⟨hlt, ?_⟩
  have hp := @List.findIdx_getElem _ (fun v => decide (v.state = st)) vs hlt
  rw [List.getD_eq_getElem _ _ hlt]
  simpa using hp

theorem vertexIndex_found (d : PlannerData) (st : ℕ)
    (h : st ∈ d.vertices.map PDVertex.state) :
    vertexIndex d st = some (d.vertices.findIdx (fun v => v.state = st)) := by
  obtain ⟨w, hw, hws⟩ := List.mem_map.mp h
  unfold vertexIndex
  rw [if_pos (List.any_eq_true.mpr ⟨w, hw, by simpa using hws⟩)]

theorem mem_state_addVertexIfMissing (d : PlannerData) (v : PDVertex) :
    v.state ∈ (addVertexIfMissing d v).vertices.map PDVertex.state := by
  unfold addVertexIfMissing
  split
  · next h =>
      rw [vertexIndex_isSome] at h
      obtain ⟨w, hw, hws⟩ := List.any_eq_true.mp h
      exact List.mem_map.mpr ⟨w, hw, by simpa using hws⟩
  · next h =>
      refine List.mem_map.mpr ⟨v, ?_, rfl⟩
      exact List.mem_append_right _ (List.mem_singleton.mpr rfl)

theorem addVertexIfMissing_ensure (d : PlannerData) (v : PDVertex)
    (h : ∀ w ∈ d.vertices, w.state = v.state → w.tag = v.tag) :
    v ∈ (addVertexIfMissing d v).vertices := by
  unfold addVertexIfMissing
  split
  · next hc =>
      rw [vertexIndex_isSome] at hc
      obtain ⟨w, hw, hws⟩ := List.any_eq_true.mp hc
      have hs : w.state = v.state := by simpa using hws
      have ht : w.tag = v.tag := h _ hw hs
      have hv : w = v := by cases w; cases v; simp_all
      exact hv ▸ hw
  · next hc =>
      exact List.mem_append_right _ (List.mem_singleton.mpr rfl)

theorem addEdgeV_vertices_def (d : PlannerData) (v1 v2 : PDVertex) :
    (addEdgeV d v1 v2).vertices
      = (addVertexIfMissing (addVertexIfMissing d v1) v2).vertices := rfl

theorem addEdgeV_edges_def (d : PlannerData) (v1 v2 : PDVertex) :
    (addEdgeV d v1 v2).edges
      = d.edges
        ++ [((addVertexIfMissing (addVertexIfMissing d v1) v2).vertices.findIdx
              (fun v => v.state = v1.state),
            (addVertexIfMissing (addVertexIfMissing d v1) v2).vertices.findIdx
              (fun v => v.state = v2.state))] := by
  show (addVertexIfMissing (addVertexIfMissing d v1) v2).edges ++ _ = _
  rw [addVertexIfMissing_edges, addVertexIfMissing_edges]

theorem addEdgeV_append (d : PlannerData) (v1 v2 : PDVertex) :
    ∃ ext, (addEdgeV d v1 v2).vertices = d.vertices ++ ext := by
  rw [addEdgeV_vertices_def]
  obtain ⟨e1, h1⟩ := addVertexIfMissing_append d v1
  obtain ⟨e2, h2⟩ := addVertexIfMissing_append (addVertexIfMissing d v1) v2
  exact ⟨e1 ++ e2, by rw [h2, h1, List.append_assoc]⟩

theorem addEdgeV_sub (d : PlannerData) (v1 v2 : PDVertex) :
    ∀ w ∈ (addEdgeV d v1 v2).vertices, w ∈ d.vertices ∨ w = v1 ∨ w = v2 := by
  intro w hw
  rw [addEdgeV_vertices_def] at hw
  rcases addVertexIfMissing_sub _ _ w hw with h2 | h2
  · rcases addVertexIfMissing_sub _ _ w h2 with h3 | h3
    · exact Or.inl h3
    · exact Or.inr (Or.inl h3)
  · exact Or.inr (Or.inr h2)

/-- The per-node step of `emitTree`. -/
def emitStep (tag : ℕ) (goalSide : Bool) (d : PlannerData) (m : Motion) : PlannerData :=
  match m.parent with
  | none => addVertexIfMissing d ⟨m.state, tag⟩
  | some p =>
      if goalSide then addEdgeV d ⟨m.state, tag⟩ ⟨p.state, tag⟩
      else addEdgeV d ⟨p.state, tag⟩ ⟨m.state, tag⟩

theorem emitTree_eq_foldl (tag : ℕ) (gs : Bool) (d : PlannerData) (ms : List Motion) :
    emitTree tag gs d ms = ms.foldl (emitStep tag gs) d := by
  unfold emitTree emitStep
  rfl

theorem emitTree_cons (tag : ℕ) (gs : Bool) (d : PlannerData) (m : Motion)
    (ms : List Motion) :
    emitTree tag gs d (m :: ms) = emitTree tag gs (emitStep tag gs d m) ms := by
  rw [emitTree_eq_foldl, emitTree_eq_foldl, List.foldl_cons]

theorem emitStep_none (tag : ℕ) (gs : Bool) (d : PlannerData) (m : Motion)
    (hp : m.parent = none) :
    emitStep tag gs d m = addVertexIfMissing d ⟨m.state, tag⟩ := by
  unfold emitStep
  rw [hp]

theorem emitStep_some (tag : ℕ) (gs : Bool) (d : PlannerData) (m : Motion) (p : Motion)
    (hp : m.parent = some p) :
    emitStep tag gs d m
      = if gs then addEdgeV d ⟨m.state, tag⟩ ⟨p.state, tag⟩
        else addEdgeV d ⟨p.state, tag⟩ ⟨m.state, tag⟩ := by
  unfold emitStep
  rw [hp]

theorem emitStep_append (tag : ℕ) (gs : Bool) (d : PlannerData) (m : Motion) :
    ∃ ext, (emitStep tag gs d m).vertices = d.vertices ++ ext := by
  unfold emitStep
  cases m.parent with
  | none => exact addVertexIfMissing_append _ _
  | some p =>
      cases gs
      · simp only [Bool.false_eq_true, if_false]
        exact addEdgeV_append _ _ _
      · simp only [if_true]
        exact addEdgeV_append _ _ _

theorem emitTree_append (tag : ℕ) (gs : Bool) :
    ∀ (ms : List Motion) (d : PlannerData),
      ∃ ext, (emitTree tag gs d ms).vertices = d.vertices ++ ext := by
  intro ms
  induction ms with
  | nil => exact fun d => ⟨[], (List.append_nil _).symm⟩
  | cons m t ih =>
      intro d
      rw [emitTree_cons]
      obtain ⟨e1, h1⟩ := emitStep_append tag gs d m
      obtain ⟨e2, h2⟩ := ih (emitStep tag gs d m)
      exact ⟨e1 ++ e2, by rw [h2, h1, List.append_assoc]⟩

theorem emitTree_mono (tag : ℕ) (gs : Bool) (ms : List Motion) (d : PlannerData)
    (w : PDVertex) (hw : w ∈ d.vertices) : w ∈ (emitTree tag gs d ms).vertices := by
  obtain ⟨ext, hext⟩ := emitTree_append tag gs ms d
  rw [hext]
  exact List.mem_append_left _ hw

theorem emitStep_sub (tag : ℕ) (gs : Bool) (d : PlannerData) (m : Motion) :
    ∀ w ∈ (emitStep tag gs d m).vertices,
      w ∈ d.vertices ∨ w.tag = tag ∧ (w.state = m.state
        ∨ ∃ p, m.parent = some p ∧ w.state = p.state) := by
  intro w hw
  unfold emitStep at hw
  cases hp : m.parent with
  | none =>
      rw [hp] at hw
      rcases addVertexIfMissing_sub _ _ w hw with h | h
      · exact Or.inl h
      · exact Or.inr ⟨by rw [h], Or.inl (by rw [h])⟩
  | some p =>
      rw [hp] at hw
      cases gs
      · simp only [Bool.false_eq_true, if_false] at hw
        rcases addEdgeV_sub _ _ _ w hw with h | h | h
        · exact Or.inl h
        · exact Or.inr ⟨by rw [h], Or.inr ⟨p, rfl, by rw [h]⟩⟩
        · exact Or.inr ⟨by rw [h], Or.inl (by rw [h])⟩
      · simp only [if_true] at hw
        rcases addEdgeV_sub _ _ _ w hw with h | h | h
        · exact Or.inl h
        · exact Or.inr ⟨by rw [h], Or.inl (by rw [h])⟩
        · exact Or.inr ⟨by rw [h], Or.inr ⟨p, rfl, by rw [h]⟩⟩

theorem emitTree_vertex_states (tag : ℕ) (gs : Bool) (S : List ℕ) :
    ∀ (ms : List Motion) (d : PlannerData),
      (∀ w ∈ d.vertices, w.state ∈ S) →
      (∀ m ∈ ms, m.state ∈ S ∧ ∀ p, m.parent = some p → p.state ∈ S) →
      ∀ w ∈ (emitTree tag gs d ms).vertices, w.state ∈ S := by
  intro ms
  induction ms with
  | nil => intro d hd _ w hw; exact hd w hw
  | cons m t ih =>
      intro d hd hms w hw
      rw [emitTree_cons] at hw
      refine ih (emitStep tag gs d m) ?_ (fun m2 hm2 => hms m2 (List.mem_cons_of_mem _ hm2))
        w hw
      intro w2 hw2
      rcases emitStep_sub tag gs d m w2 hw2 with h | ⟨_, h⟩
      · exact hd w2 h
      · rcases h with h | ⟨p, hp, h⟩
        · rw [h]; exact (hms m (List.mem_cons_self _ _)).1
        · rw [h]; exact (hms m (List.mem_cons_self _ _)).2 p hp

theorem emitStep_tag_inv (tag : ℕ) (gs : Bool) (X : List ℕ) (d : PlannerData) (m : Motion)
    (hd : ∀ w ∈ d.vertices, w.state ∈ X → w.tag = tag) :
    ∀ w ∈ (emitStep tag gs d m).vertices, w.state ∈ X → w.tag = tag := by
  intro w hw hx
  rcases emitStep_sub tag gs d m w hw with h | ⟨ht, _⟩
  · exact hd w h hx
  · exact ht

theorem emitStep_mem_self (tag : ℕ) (gs : Bool) (X : List ℕ) (d : PlannerData) (m : Motion)
    (hd : ∀ w ∈ d.vertices, w.state ∈ X → w.tag = tag)
    (hmX : m.state ∈ X) :
    PDVertex.mk m.state tag ∈ (emitStep tag gs d m).vertices := by
  unfold emitStep
  cases hp : m.parent with
  | none =>
      exact addVertexIfMissing_ensure d ⟨m.state, tag⟩ (fun w hw hs => hd w hw (hs ▸ hmX))
  | some p =>
      have hinner : ∀ (v1 : PDVertex), v1.tag = tag →
          PDVertex.mk m.state tag ∈
            (addVertexIfMissing (addVertexIfMissing d v1) ⟨m.state, tag⟩).vertices := by
        intro v1 ht1
        refine addVertexIfMissing_ensure _ ⟨m.state, tag⟩ ?_
        intro w hw hs
        rcases addVertexIfMissing_sub _ _ w hw with h | h
        · exact hd w h (hs ▸ hmX)
        · rw [h, ht1]
      cases gs
      · simp only [Bool.false_eq_true, if_false]
        rw [addEdgeV_vertices_def]
        exact hinner ⟨p.state, tag⟩ rfl
      · simp only [if_true]
        rw [addEdgeV_vertices_def]
        have h1 : PDVertex.mk m.state tag ∈
            (addVertexIfMissing d ⟨m.state, tag⟩).vertices :=
          addVertexIfMissing_ensure d ⟨m.state, tag⟩ (fun w hw hs => hd w hw (hs ▸ hmX))
        obtain ⟨ext, hext⟩ :=
          addVertexIfMissing_append (addVertexIfMissing d ⟨m.state, tag⟩) ⟨p.state, tag⟩
        rw [hext]
        exact List.mem_append_left _ h1

theorem emitTree_mem_vertices (tag : ℕ) (gs : Bool) (X : List ℕ) :
    ∀ (ms : List Motion) (d : PlannerData),
      (∀ w ∈ d.vertices, w.state ∈ X → w.tag = tag) →
      (∀ m ∈ ms, m.state ∈ X) →
      ∀ m ∈ ms, PDVertex.mk m.state tag ∈ (emitTree tag gs d ms).vertices := by
  intro ms
  induction ms with
  | nil => intro d _ _ m hm; cases hm
  | cons m0 t ih =>
      intro d hd hX m hm
      rw [emitTree_cons]
      rcases List.mem_cons.mp hm with rfl | hm2
      · exact emitTree_mono tag gs t _ _
          (emitStep_mem_self tag gs X d m hd (hX m (List.mem_cons_self _ _)))
      · exact ih (emitStep tag gs d m0) (emitStep_tag_inv tag gs X d m0 hd)
          (fun m2 hm2b => hX m2 (List.mem_cons_of_mem _ hm2b)) m hm2

theorem decodeEdge_stable (vs ext : List PDVertex) (e : ℕ × ℕ)
    (h1 : e.1 < vs.length) (h2 : e.2 < vs.length) :
    decodeEdge (vs ++ ext) e = decodeEdge vs e := by
  unfold decodeEdge
  simp only [List.getD_eq_getElem?_getD]
  rw [List.getElem?_append_left h1, List.getElem?_append_left h2]

theorem treeEdges_cons_none (gs : Bool) (m : Motion) (t : List Motion)
    (hp : m.parent = none) :
    treeEdges gs (m :: t) = treeEdges gs t := by
  unfold treeEdges
  rw [List.filterMap_cons, hp]
  rfl

theorem treeEdges_cons_some (gs : Bool) (m : Motion) (t : List Motion) (p : Motion)
    (hp : m.parent = some p) :
    treeEdges gs (m :: t)
      = (if gs then (m.state, p.state) else (p.state, m.state)) :: treeEdges gs t := by
  unfold treeEdges
  rw [List.filterMap_cons, hp]
  rfl

theorem addEdgeV_decode (d : PlannerData) (v1 v2 : PDVertex)
    (hinv : ∀ e ∈ d.edges, e.1 < d.vertices.length ∧ e.2 < d.vertices.length) :
    decodeAll (addEdgeV d v1 v2) = decodeAll d ++ [(v1.state, v2.state)]
    ∧ ∀ e ∈ (addEdgeV d v1 v2).edges,
        e.1 < (addEdgeV d v1 v2).vertices.length
        ∧ e.2 < (addEdgeV d v1 v2).vertices.length := by
  have hm1 : v1.state ∈
      (addVertexIfMissing (addVertexIfMissing d v1) v2).vertices.map PDVertex.state := by
    obtain ⟨ext, hext⟩ := addVertexIfMissing_append (addVertexIfMissing d v1) v2
    rw [hext, List.map_append]
    exact List.mem_append_left _ (mem_state_addVertexIfMissing d v1)
  have hm2 : v2.state ∈
      (addVertexIfMissing (addVertexIfMissing d v1) v2).vertices.map PDVertex.state :=
    mem_state_addVertexIfMissing _ v2
  obtain ⟨hi1, hg1⟩ := findIdx_state _ _ hm1
  obtain ⟨hi2, hg2⟩ := findIdx_state _ _ hm2
  obtain ⟨ext, hext⟩ := addEdgeV_append d v1 v2
  have hlen : d.vertices.length ≤ (addEdgeV d v1 v2).vertices.length := by
    rw [hext, List.length_append]
    exact Nat.le_add_right _ _
  have hvd := addEdgeV_vertices_def d v1 v2
  constructor
  · unfold decodeAll
    rw [addEdgeV_edges_def, List.map_append, hvd]
    congr 1
    · rw [← hvd, hext]
      refine List.map_congr_left ?_
      intro e he
      exact decodeEdge_stable d.vertices ext e (hinv e he).1 (hinv e he).2
    · rw [List.map_singleton]
      unfold decodeEdge
      rw [hg1, hg2]
  · intro e he
    rw [addEdgeV_edges_def] at he
    rcases List.mem_append.mp he with h | h
    · exact ⟨lt_of_lt_of_le (hinv e h).1 hlen, lt_of_lt_of_le (hinv e h).2 hlen⟩
    · rw [List.mem_singleton.mp h, hvd]
      exact ⟨hi1, hi2⟩

theorem emitTree_decode (tag : ℕ) (gs : Bool) :
    ∀ (ms : List Motion) (d : PlannerData),
      (∀ e ∈ d.edges, e.1 < d.vertices.length ∧ e.2 < d.vertices.length) →
      decodeAll (emitTree tag gs d ms) = decodeAll d ++ treeEdges gs ms
      ∧ ∀ e ∈ (emitTree tag gs d ms).edges,
          e.1 < (emitTree tag gs d ms).vertices.length
          ∧ e.2 < (emitTree tag gs d ms).vertices.length := by
  intro ms
  induction ms with
  | nil =>
      intro d hinv
      refine ⟨?_, hinv⟩
      unfold treeEdges
      rw [List.filterMap_nil, List.append_nil]
      rfl
  | cons m t ih =>
      intro d hinv
      rw [emitTree_cons]
      cases hp : m.parent with
      | none =>
          rw [emitStep_none tag gs d m hp]
          have hed := addVertexIfMissing_edges d ⟨m.state, tag⟩
          obtain ⟨ext, hext⟩ := addVertexIfMissing_append d ⟨m.state, tag⟩
          have hinv2 : ∀ e ∈ (addVertexIfMissing d ⟨m.state, tag⟩).edges,
              e.1 < (addVertexIfMissing d ⟨m.state, tag⟩).vertices.length
              ∧ e.2 < (addVertexIfMissing d ⟨m.state, tag⟩).vertices.length := by
            intro e he
            rw [hed] at he
            rw [hext, List.length_append]
            exact ⟨lt_of_lt_of_le (hinv e he).1 (Nat.le_add_right _ _),
                   lt_of_lt_of_le (hinv e he).2 (Nat.le_add_right _ _)⟩
          obtain ⟨hdec, hinv3⟩ := ih (addVertexIfMissing d ⟨m.state, tag⟩) hinv2
          refine ⟨?_, hinv3⟩
          rw [hdec, treeEdges_cons_none gs m t hp]
          congr 1
          unfold decodeAll
          rw [hed, hext]
          refine List.map_congr_left ?_
          intro e he
          exact decodeEdge_stable d.vertices ext e (hinv e he).1 (hinv e he).2
      | some p =>
          set v1 := if gs then PDVertex.mk m.state tag else PDVertex.mk p.state tag with hv1
          set v2 := if gs then PDVertex.mk p.state tag else PDVertex.mk m.state tag with hv2
          have hstep : emitStep tag gs d m = addEdgeV d v1 v2 := by
            rw [emitStep_some tag gs d m p hp]
            cases gs <;> simp [hv1, hv2]
          rw [hstep]
          obtain ⟨hdec1, hinv2⟩ := addEdgeV_decode d v1 v2 hinv
          obtain ⟨hdec2, hinv3⟩ := ih (addEdgeV d v1 v2) hinv2
          refine ⟨?_, hinv3⟩
          rw [hdec2, hdec1, treeEdges_cons_some gs m t p hp, List.append_assoc]
          congr 1
          cases gs <;> simp [hv1, hv2]

theorem addEdgeIdx_none_none (d : PlannerData) : addEdgeIdx d none none = d := rfl

theorem addEdgeIdx_some_some (d : PlannerData) (i j : ℕ) :
    addEdgeIdx d (some i) (some j) = { d with edges := d.edges ++ [(i, j)] } := rfl

theorem getPlannerData_conn_none (s : PlannerState) (hc : s.connection = none) :
    getPlannerData s
      = emitTree 2 true (emitTree 1 false PlannerData.empty s.startT.motions)
          s.goalT.motions := by
  unfold getPlannerData
  rw [hc]
  rfl

theorem getPlannerData_conn_some (s : PlannerState) (a b : ℕ)
    (hc : s.connection = some (a, b)) :
    getPlannerData s
      = addEdgeIdx
          (emitTree 2 true (emitTree 1 false PlannerData.empty s.startT.motions)
            s.goalT.motions)
          (vertexIndex
            (emitTree 2 true (emitTree 1 false PlannerData.empty s.startT.motions)
              s.goalT.motions) a)
          (vertexIndex
            (emitTree 2 true (emitTree 1 false PlannerData.empty s.startT.motions)
              s.goalT.motions) b) := by
  unfold getPlannerData
  rw [hc]

/-- C8: `getPlannerData` emits every start-side node as a vertex
tagged 1 and every goal-side node as a vertex tagged 2; decoded by
endpoint states, its edge list is exactly one parent-to-child edge
per non-root start node, then one child-to-parent edge per non-root
goal node, then the edge joining the two recorded bridging states —
present exactly when a connection was recorded and absent when the
planner never solved. -/
theorem getPlannerData_spec (s : PlannerState)
    (hnd : (s.startT.motions.map Motion.state ++ s.goalT.motions.map Motion.state).Nodup)
    (hps : ∀ m ∈ s.startT.motions, ∀ p, m.parent = some p →
        p.state ∈ s.startT.motions.map Motion.state)
    (hcon : ∀ a b, s.connection = some (a, b) →
        a ∈ s.startT.motions.map Motion.state ++ s.goalT.motions.map Motion.state
        ∧ b ∈ s.startT.motions.map Motion.state ++ s.goalT.motions.map Motion.state) :
    (∀ m ∈ s.startT.motions, PDVertex.mk m.state 1 ∈ (getPlannerData s).vertices)
    ∧ (∀ m ∈ s.goalT.motions, PDVertex.mk m.state 2 ∈ (getPlannerData s).vertices)
    ∧ decodeAll (getPlannerData s)
        = treeEdges false s.startT.motions ++ treeEdges true s.goalT.motions
          ++ connEdges s.connection := by
  have hmem1 : ∀ m ∈ s.startT.motions,
      PDVertex.mk m.state 1
        ∈ (emitTree 1 false PlannerData.empty s.startT.motions).vertices :=
    emitTree_mem_vertices 1 false (s.startT.motions.map Motion.state) s.startT.motions
      PlannerData.empty (by intro w hw; cases hw)
      (fun m hm => List.mem_map_of_mem Motion.state hm)
  have hst1 : ∀ w ∈ (emitTree 1 false PlannerData.empty s.startT.motions).vertices,
      w.state ∈ s.startT.motions.map Motion.state :=
    emitTree_vertex_states 1 false (s.startT.motions.map Motion.state) s.startT.motions
      PlannerData.empty (by intro w hw; cases hw)
      (fun m hm => ⟨List.mem_map_of_mem Motion.state hm, hps m hm⟩)
  have hdisj : List.Disjoint (s.startT.motions.map Motion.state)
      (s.goalT.motions.map Motion.state) := (List.nodup_append.mp hnd).2.2
  have hd2pre : ∀ w ∈ (emitTree 1 false PlannerData.empty s.startT.motions).vertices,
      w.state ∈ s.goalT.motions.map Motion.state → w.tag = 2 :=
    fun w hw hx => absurd hx (fun hx2 => hdisj (hst1 w hw) hx2)
  have hmem2 : ∀ m ∈ s.goalT.motions,
      PDVertex.mk m.state 2
        ∈ (emitTree 2 true (emitTree 1 false PlannerData.empty s.startT.motions)
            s.goalT.motions).vertices :=
    emitTree_mem_vertices 2 true (s.goalT.motions.map Motion.state) s.goalT.motions
      (emitTree 1 false PlannerData.empty s.startT.motions) hd2pre
      (fun m hm => List.mem_map_of_mem Motion.state hm)
  have hmem1b : ∀ m ∈ s.startT.motions,
      PDVertex.mk m.state 1
        ∈ (emitTree 2 true (emitTree 1 false PlannerData.empty s.startT.motions)
            s.goalT.motions).vertices :=
    fun m hm => emitTree_mono 2 true s.goalT.motions _ _ (hmem1 m hm)
  obtain ⟨hdec1, hinv1⟩ :=
    emitTree_decode 1 false s.startT.motions PlannerData.empty (by intro e he; cases he)
  obtain ⟨hdec2, hinv2⟩ :=
    emitTree_decode 2 true s.goalT.motions
      (emitTree 1 false PlannerData.empty s.startT.motions) hinv1
  have hd2dec : decodeAll (emitTree 2 true
      (emitTree 1 false PlannerData.empty s.startT.motions) s.goalT.motions)
      = treeEdges false s.startT.motions ++ treeEdges true s.goalT.motions := by
    rw [hdec2, hdec1]
    rfl
  cases hc : s.connection with
  | none =>
      rw [getPlannerData_conn_none s hc]
      refine ⟨hmem1b, hmem2, ?_⟩
      rw [hd2dec]
      simp only [connEdges, List.append_nil]
  | some ab =>
      obtain ⟨a, b⟩ := ab
      have hab := hcon a b hc
      set d2 := emitTree 2 true (emitTree 1 false PlannerData.empty s.startT.motions)
        s.goalT.motions with hd2def
      have hmemstate : ∀ x, x ∈ s.startT.motions.map Motion.state
            ++ s.goalT.motions.map Motion.state →
          x ∈ d2.vertices.map PDVertex.state := by
        intro x hx
        rcases List.mem_append.mp hx with hx2 | hx2
        · obtain ⟨m, hm, hmx⟩ := List.mem_map.mp hx2
          exact List.mem_map.mpr ⟨⟨m.state, 1⟩, hmem1b m hm, hmx⟩
        · obtain ⟨m, hm, hmx⟩ := List.mem_map.mp hx2
          exact List.mem_map.mpr ⟨⟨m.state, 2⟩, hmem2 m hm, hmx⟩
      have ha := hmemstate a hab.1
      have hb := hmemstate b hab.2
      rw [getPlannerData_conn_some s a b hc, ← hd2def, vertexIndex_found _ a ha,
        vertexIndex_found _ b hb, addEdgeIdx_some_some]
      obtain ⟨hia, hga⟩ := findIdx_state _ a ha
      obtain ⟨hib, hgb⟩ := findIdx_state _ b hb
      refine ⟨fun m hm => hmem1b m hm, fun m hm => hmem2 m hm, ?_⟩
      unfold decodeAll at hd2dec ⊢
      simp only [List.map_append, List.map_singleton]
      rw [hd2dec]
      have hlast : decodeEdge d2.vertices
          (d2.vertices.findIdx (fun v => v.state = a),
           d2.vertices.findIdx (fun v => v.state = b)) = (a, b) := by
        show ((d2.vertices.getD (d2.vertices.findIdx (fun v => v.state = a)) ⟨0, 0⟩).state,
              (d2.vertices.getD (d2.vertices.findIdx (fun v => v.state = b)) ⟨0, 0⟩).state)
            = (a, b)
        rw [hga, hgb]
      rw [hlast]
      rfl

/-- Witness for C8: the solved two-node-start, one-node-goal state
`sC8` with recorded connection `(1, 5)`. -/
theorem getPlannerData_spec_witness :
    (∀ m ∈ sC8.startT.motions, PDVertex.mk m.state 1 ∈ (getPlannerData sC8).vertices)
    ∧ (∀ m ∈ sC8.goalT.motions, PDVertex.mk m.state 2 ∈ (getPlannerData sC8).vertices)
    ∧ decodeAll (getPlannerData sC8)
        = treeEdges false sC8.startT.motions ++ treeEdges true sC8.goalT.motions
          ++ connEdges sC8.connection := by
  refine getPlannerData_spec sC8 (by decide) ?_ ?_
  · intro m hm p hp
    fin_cases hm
    · exact absurd hp (by simp [Motion.parent])
    · rw [show (Motion.mk1 1 0 (Motion.mk0 0 0 0) 1).parent
          = some (Motion.mk0 0 0 0) from rfl] at hp
      obtain rfl := Option.some.inj hp
      decide
  · intro a b h
    rw [show sC8.connection = some (1, 5) from rfl] at h
    have h2 := Option.some.inj h
    injection h2 with h3 h4
    subst h3
    subst h4
    decide

end BiRealEST
